import Mathlib

set_option maxHeartbeats 1000000

/-!
Shallow embedding of `src/lib/http.js` (worldline/node-soap HTTP transport layer).

The source file contains two concatenated revisions of the same module:
an older one (lines 1-164, with `handleAttachmentResponse`) and a newer,
attachment-capable one (lines 165-358, with `buildRequest`, `handleResponse`,
`handleMultipart` and `request`).  The claims are about the newer revision,
except where they explicitly compare the two copies of `handleResponse`.

Modelling conventions:
* JS strings are `String` (a list of characters); byte-level views are not needed
  by any claim.
* JS objects used as ordered string maps (`headers` of the request, the per-part
  header map) are association lists `List (String × _)` with JS-object update
  semantics: assignment to an existing key keeps its position and replaces the
  value, assignment to a fresh key appends.
* `undefined` values are `Option.none`; a JS header value that may be `undefined`
  (a header line without a colon) is `Option String`.
* The regular expressions of the source are implemented directly as backtracking
  matchers specialised to the concrete patterns, with JS semantics (leftmost
  match, greedy quantifiers, case-insensitive comparison via `Char.toLower`).
* `url.parse` and `uuid()` are external libraries (Node stdlib / npm), not code
  of this repository: the parsed URL and the two generated identifiers are taken
  as inputs of the embedded `buildRequest`.
* `extraOptions` is modelled by its `attachments` entry, the only entry any
  claim quantifies over; the final `for attr in _.omit(exoptions, ['attachments'])`
  copy loop is the identity for such option objects.
-/

/-- Characters of the JS `\s` class (WhiteSpace plus LineTerminator), used by
the regex `[\s]*` of `handleResponse` and by `String.prototype.trim`. -/
def isJsSpace (c : Char) : Bool :=
  c == ' ' || c == '\t' || c == '\n' || c == '\r' || c == '\x0b' || c == '\x0c' ||
  c == '\u00a0' || c == '\u1680' || ('\u2000' ≤ c && c ≤ '\u200a') ||
  c == '\u2028' || c == '\u2029' || c == '\u202f' || c == '\u205f' ||
  c == '\u3000' || c == '\ufeff'

/-- JS `String.prototype.trim`: strip `\s`-class characters from both ends. -/
def jsTrim (l : List Char) : List Char :=
  ((l.dropWhile isJsSpace).reverse.dropWhile isJsSpace).reverse

/-- Case-insensitive character comparison, as performed by a JS regex with the
`i` flag (simple case folding; ASCII is all the claims exercise). -/
def ciEqC (a b : Char) : Bool := a.toLower == b.toLower

/-- Match `pat` case-insensitively against the head of the input; on success
return the consumed input characters (original case) and the remainder. -/
def ciStrip2 : List Char → List Char → Option (List Char × List Char)
  | [], l => some ([], l)
  | _ :: _, [] => none
  | p :: ps, b :: bs =>
    if ciEqC p b then
      match ciStrip2 ps bs with
      | some (c, r) => some (b :: c, r)
      | none => none
    else none

/-- Case-sensitive test that `pat` is a leading segment of `l` (used to model
`String.prototype.indexOf` and `search`). -/
def isPreB : List Char → List Char → Bool
  | [], _ => true
  | _ :: _, [] => false
  | a :: as, b :: bs => a == b && isPreB as bs

/-- Case-sensitive substring test: JS `s.indexOf(pat) !== -1`. -/
def containsB (pat : List Char) : List Char → Bool
  | [] => isPreB pat []
  | b :: bs => isPreB pat (b :: bs) || containsB pat bs

/-- JS object property read by exact key: first (unique) entry with that key. -/
def getHeader {β : Type} (hs : List (String × β)) (k : String) : Option β :=
  (hs.find? (fun e => e.1 == k)).map (fun e => e.2)

/-- JS object property assignment: replace in place, or append a fresh key. -/
def setHeader {β : Type} (hs : List (String × β)) (k : String) (v : β) :
    List (String × β) :=
  if hs.any (fun e => e.1 == k) then hs.map (fun e => if e.1 == k then (k, v) else e)
  else hs ++ [(k, v)]

/-- JS `delete obj[k]` on a string map. -/
def removeHeader {β : Type} (hs : List (String × β)) (k : String) : List (String × β) :=
  hs.filter (fun e => !(e.1 == k))

/-- JS truthiness of the `data` payload (`data ? 'POST' : 'GET'`): `undefined`
and the empty string are falsy, every other string is truthy. -/
def jsTruthy : Option String → Bool
  | none => false
  | some s => !(s == "")

/-- Result of Node's `url.parse(rurl)`, restricted to the fields `buildRequest`
reads (`protocol`, `hostname`, `port` after `parseInt`); `url.parse` is Node
stdlib, external to this repository. -/
structure ParsedUrl where
  protocol : String
  hostname : String
  port : Option Nat
deriving DecidableEq, Repr

/-- One element of the `multipart` array built for attachment requests
(lines 232-244): the envelope part carries a `content-type`, attachment parts
do not; `body` is the raw payload (`undefined` when `data` is absent). -/
structure MultiPart where
  contentType : Option String
  transferEncoding : String
  contentId : String
  body : Option String
deriving DecidableEq, Repr

/-- The options object returned by `buildRequest` (lines 248-266).  `multipart`
and `body` are `none` when the corresponding JS property is never assigned or
assigned `undefined`. -/
structure RequestOptions where
  uri : ParsedUrl
  method : String
  headers : List (String × String)
  followAllRedirects : Bool
  encodingNull : Bool
  multipart : Option (List MultiPart)
  body : Option String
deriving DecidableEq, Repr

/-- Modelled from the spec: the fixed product version string baked into the
User-Agent header (`require('../package.json').version`; `package.json` is not
under `src/`).  No claim depends on its value. -/
def versionStr : String := "0.0.0"

/-- The `content-type` header value assembled on lines 230-231 for attachment
requests. -/
def multipartContentType (startId boundaryId : String) : String :=
  "multipart/related; boundary=" ++ boundaryId ++
    "; type=\"application/soap+xml\"; start=\"<" ++ startId ++ ">\""

/-- `HttpClient.prototype.buildRequest` of the newer revision (lines 200-267).
`startId` and `boundaryId` stand for the two `uuid()` results. -/
def buildRequest (curl : ParsedUrl) (data : Option String)
    (exheaders : List (String × String)) (attachments : List (String × String))
    (startId boundaryId : String) : RequestOptions :=
  let method := if jsTruthy data then "POST" else "GET"
  let headers : List (String × String) :=
    [("User-Agent", "node-soap/" ++ versionStr),
     ("Accept", "text/html,application/xhtml+xml,application/xml,text/xml;q=0.9,*/*;q=0.8"),
     ("Accept-Encoding", "none"),
     ("Accept-Charset", "utf-8"),
     ("Connection", "close"),
     ("Host", curl.hostname ++ (match curl.port with
                                | none => ""
                                | some p => ":" ++ toString p))]
  let headers := exheaders.foldl (fun hs kv => setHeader hs kv.1 kv.2) headers
  let headers :=
    if data.isSome && attachments.isEmpty then
      setHeader headers "Content-Length" (toString (data.getD "").utf8ByteSize)
    else if !attachments.isEmpty then
      setHeader (removeHeader headers "SOAPAction") "content-type"
        (multipartContentType startId boundaryId)
    else headers
  let multipart : Option (List MultiPart) :=
    if !attachments.isEmpty then
      some ({ contentType := some "application/soap+xml; charset=UTF-8",
              transferEncoding := "8bit",
              contentId := "<" ++ startId ++ ">",
              body := data } ::
            attachments.map (fun kv =>
              { contentType := none,
                transferEncoding := "binary",
                contentId := "<" ++ kv.1 ++ ">",
                body := some kv.2 }))
    else none
  let body : Option String :=
    if attachments.isEmpty && (getHeader headers "Connection" == some "keep-alive") then data
    else none
  { uri := curl, method := method, headers := headers, followAllRedirects := true,
    encodingNull := true, multipart := multipart, body := body }

/-- The property claim C8 asserts of every built request: exactly one of the
`body` and `multipart` fields populated. -/
def oneOfBodyMultipart (r : RequestOptions) : Prop :=
  (r.body ≠ none ∧ r.multipart = none) ∨ (r.body = none ∧ r.multipart ≠ none)

/-- A concrete parsed URL used by the closed counterexamples and witnesses. -/
def urlEx : ParsedUrl := ⟨"http:", "localhost", none⟩

/-- Conclusion of the amended claim C1 about a built request `r`: no single
`body`; a `content-type` containing `multipart/related` whose `start="..."`
parameter is the first (envelope) part's own `content-id`; the envelope part
carries the payload; and the subsequent parts carry, in attachment-map order,
content-ids that are the map keys wrapped in angle brackets. -/
def c1Conclusion (r : RequestOptions) (atts : List (String × String))
    (data : Option String) : Prop :=
  r.body = none ∧
  ∃ ct, getHeader r.headers "content-type" = some ct ∧
    "multipart/related".data <:+: ct.data ∧
    ∃ env tl, r.multipart = some (env :: tl) ∧
      ("start=\"" ++ env.contentId ++ "\"").data <:+: ct.data ∧
      env.body = data ∧
      tl.map (fun p => p.contentId) = atts.map (fun kv => "<" ++ kv.1 ++ ">")

/-- A parsed MIME part (`{headers: ..., data: ...}` pushed on line 324): the
header map may store `undefined` values (a header line with no colon). -/
structure MimePart where
  headers : List (String × Option String)
  data : String
deriving DecidableEq, Repr

/-- JS `String.prototype.split` with a single-character separator and no limit
(used as `header.split(':')` on lines 312-313). -/
def splitOnCh (sep : Char) : List Char → List (List Char)
  | [] => [[]]
  | x :: rest =>
    if x == sep then [] :: splitOnCh sep rest
    else
      match splitOnCh sep rest with
      | [] => [[x]]
      | h :: t => (x :: h) :: t

/-- Accumulator-based splitting of the header block on the regex `\r?\n`
(line 311): a CRLF pair or a bare LF separates lines, a lone CR does not. -/
def splitLinesAux : List Char → List Char → List (List Char)
  | acc, [] => [acc.reverse]
  | acc, '\r' :: '\n' :: rest => acc.reverse :: splitLinesAux [] rest
  | acc, '\n' :: rest => acc.reverse :: splitLinesAux [] rest
  | acc, c :: rest => splitLinesAux (c :: acc) rest

/-- JS `headerPart.split(/\r?\n/g)`. -/
def splitLines (l : List Char) : List (List Char) := splitLinesAux [] l

/-- Processing of one header line (lines 312-321): `headerName` is
`header.split(':')[0]`, `headerValue` is `header.split(':')[1]` (the chunk
between the first and second colon, `undefined` when there is no colon); the
line is skipped when `headerName` is falsy (empty); the name is trimmed, the
value trimmed only when defined and non-empty. -/
def processHeaderLine (hs : List (String × Option String)) (line : List Char) :
    List (String × Option String) :=
  let chunks := splitOnCh ':' line
  let headerName := (chunks[0]?).getD []
  let headerValue : Option (List Char) := chunks[1]?
  if headerName.isEmpty then hs
  else
    let name := String.mk (jsTrim headerName)
    let value : Option String :=
      match headerValue with
      | none => none
      | some v => if v.isEmpty then some "" else some (String.mk (jsTrim v))
    setHeader hs name value

/-- The header map built from a part's header block (lines 310-321). -/
def parseHeaderBlock (s : String) : List (String × Option String) :=
  (splitLines s.data).foldl processHeaderLine []

/-- JS `attachment.search(/\r\n\r\n/g)` (line 307): index of the first
occurrence of CRLFCRLF, `none` standing for `-1`. -/
def searchCrlf2 : List Char → Option Nat
  | [] => none
  | c :: rest =>
    if isPreB ['\r', '\n', '\r', '\n'] (c :: rest) then some 0
    else (searchCrlf2 rest).map (· + 1)

/-- Clamp a JS index to `[0, len]` (`String.prototype.substring` coerces
negative arguments to 0 and caps at the length). -/
def clampIdx (len : Nat) (i : Int) : Nat := if i.toNat ≤ len then i.toNat else len

/-- JS `s.substring(a, b)`: clamp both arguments, swap if out of order. -/
def jsSubstring (s : String) (a b : Int) : String :=
  String.mk
    ((s.data.take
        (if clampIdx s.data.length a ≤ clampIdx s.data.length b then
          clampIdx s.data.length b else clampIdx s.data.length a)).drop
      (if clampIdx s.data.length a ≤ clampIdx s.data.length b then
        clampIdx s.data.length a else clampIdx s.data.length b))

/-- JS `s.substring(a)` (one-argument form). -/
def jsSubstringFrom (s : String) (a : Int) : String :=
  String.mk (s.data.drop (clampIdx s.data.length a))

/-- Parsing of one boundary-delimited segment (lines 306-324): `bodyIndex` is
`-1` when the segment contains no CRLFCRLF, the header block is
`substring(0, bodyIndex)` and the data is `substring(bodyIndex + 4)`. -/
def parsePart (seg : String) : MimePart :=
  let bodyIndex : Int :=
    match searchCrlf2 seg.data with
    | some i => (i : Int)
    | none => -1
  { headers := parseHeaderBlock (jsSubstring seg 0 bodyIndex),
    data := jsSubstringFrom seg (bodyIndex + 4) }

/-- The literal part of the boundary regex `/boundary=\"([^\"]*)\"/i`. -/
def boundaryLit : List Char := ['b', 'o', 'u', 'n', 'd', 'a', 'r', 'y', '=', '"']

/-- Leftmost match of `/boundary=\"([^\"]*)\"/i` against the content-type
header (line 301), returning the captured group: at each start position, match
`boundary=\"` case-insensitively, then capture up to the next double quote,
which must exist. -/
def extractBoundary : List Char → Option (List Char)
  | [] => none
  | c :: rest =>
    match ciStrip2 boundaryLit (c :: rest) with
    | some (_, r) =>
      match r.dropWhile (fun x => !(x == '"')) with
      | _ :: _ => some (r.takeWhile (fun x => !(x == '"')))
      | [] => extractBoundary rest
    | none => extractBoundary rest

/-- `HttpClient.prototype.handleMultipart` (lines 296-330).  `contentType` is
`res.headers['content-type']`, `none` when `res` is missing or the header is
undefined; an empty header value is falsy in JS and also yields no parts.  When
a quoted boundary is found the body is split on `'--' + boundary` and every
segment (including preamble and epilogue) is parsed into a MimePart. -/
def handleMultipart : Option String → String → List MimePart
  | none, _ => []
  | some ct, body =>
    if ct == "" then []
    else
      match extractBoundary ct.data with
      | none => []
      | some bnd => (body.splitOn ("--" ++ String.mk bnd)).map parsePart

/-- JS `String.prototype.toLowerCase` (simple per-character mapping, which is
what the ASCII header names the code compares require). -/
def lowerS (s : String) : String := String.mk (s.data.map Char.toLower)

/-- The per-part attachment test of `request` (lines 343-348): look up the
first header whose (truthy) name lowercases to `content-disposition` and test
whether its value contains the literal, case-sensitive token `attachment`
(JS `indexOf`); an undefined value is replaced by the empty string. -/
def isAttachmentPart (p : MimePart) : Bool :=
  let contentDisposition : Option String :=
    (p.headers.find? (fun e => (e.1 != "") && (lowerS e.1 == "content-disposition"))).bind
      (fun e => e.2)
  containsB "attachment".data (contentDisposition.getD "").data

/-- The attachments subset delivered to the caller (line 343). -/
def attachmentsOf (parts : List MimePart) : List MimePart :=
  parts.filter isAttachmentPart

/-- The attachment predicate as claim C6 states it: some header whose name is
`Content-Disposition` up to letter case and whose value contains `attachment`
up to letter case. -/
def claimAttachmentP (p : MimePart) : Bool :=
  p.headers.any (fun e =>
    (lowerS e.1 == "content-disposition") &&
    containsB "attachment".data (lowerS (e.2.getD "")).data)

/-- The entry contributed by one header line, per amended claim C3: the name is
the text before the first colon (the line is skipped when that text is empty),
trimmed; the value is the text strictly between the first and second colons
(`undefined` when the line has no colon), trimmed only when non-empty. -/
def lineEntry (line : List Char) : Option (String × Option String) :=
  let name0 := line.takeWhile (fun c => !(c == ':'))
  if name0.isEmpty then none
  else
    let value : Option String :=
      match line.dropWhile (fun c => !(c == ':')) with
      | [] => none
      | _ :: r =>
        let v := r.takeWhile (fun c => !(c == ':'))
        if v.isEmpty then some "" else some (String.mk (jsTrim v))
    some (String.mk (jsTrim name0), value)

/-- Matcher for the optional prolog group `(?:<\?[^?]*\?>[\s]*)?` of the
`handleResponse` regex, at the start of the input: `<?`, then the maximal run
of non-`?` characters, then `?>`, then the maximal run of `\s` characters
(each quantifier is greedy; no shorter match can succeed because the character
after a shortened run could never match the following literal).  Returns the
consumed characters and the remainder. -/
def matchProlog (l : List Char) : Option (List Char × List Char) :=
  match l with
  | c1 :: c2 :: rest =>
    if c1 = '<' ∧ c2 = '?' then
      let a := rest.takeWhile (fun c => !(c == '?'))
      match rest.dropWhile (fun c => !(c == '?')) with
      | d1 :: d2 :: b2 =>
        if d1 = '?' ∧ d2 = '>' then
          some ('<' :: '?' :: (a ++ '?' :: '>' :: b2.takeWhile isJsSpace),
            b2.dropWhile isJsSpace)
        else none
      | _ => none
    else none
  | _ => none

/-- The literal `Envelope` of the regex (matched case-insensitively). -/
def envLit : List Char := ['E', 'n', 'v', 'e', 'l', 'o', 'p', 'e']

/-- The closing-tag pattern `</` ++ capture1 ++ `:Envelope>` (the back-reference
`\1` under the `i` flag compares case-insensitively). -/
def closePat (cap1 : List Char) : List Char :=
  '<' :: '/' :: (cap1 ++ ':' :: (envLit ++ ['>']))

/-- Greedy search for the LAST position where `pat` matches case-insensitively
(the backtracking of the greedy `([\S\s]*)` tries the longest middle first):
returns the characters before the match, the matched characters and the tail
after it. -/
def findLastClose (pat : List Char) : List Char → Option (List Char × List Char × List Char)
  | [] =>
    match ciStrip2 pat [] with
    | some (c, r) => some ([], c, r)
    | none => none
  | a :: rest =>
    match findLastClose pat rest with
    | some (mid, c, r) => some (a :: mid, c, r)
    | none =>
      match ciStrip2 pat (a :: rest) with
      | some (c, r) => some ([], c, r)
      | none => none

/-- Matcher for the mandatory core `<([^:]*):Envelope([\S\s]*)<\/\1:Envelope>`
of the `handleResponse` regex at the start of the input: `<`, capture 1 is the
maximal run of non-colon characters, then a colon, the literal `Envelope`
case-insensitively, and the greedy `([\S\s]*)` runs to the LAST occurrence of
the closing tag.  Returns the consumed characters and the remainder. -/
def matchCore (l : List Char) : Option (List Char × List Char) :=
  match l with
  | c1 :: rest =>
    if c1 = '<' then
      let cap1 := rest.takeWhile (fun c => !(c == ':'))
      match rest.dropWhile (fun c => !(c == ':')) with
      | h :: r2 =>
        match ciStrip2 envLit r2 with
        | some (envC, r3) =>
          match findLastClose (closePat cap1) r3 with
          | some (mid, closeC, tl) =>
            some ('<' :: (cap1 ++ h :: (envC ++ mid ++ closeC)), tl)
          | none => none
        | none => none
      | [] => none
    else none
  | [] => none

/-- One attempt of the whole regex at a fixed start position: the optional
prolog group is greedy, so it is tried first; if the core fails after it, the
engine backtracks and retries with the group matching empty. -/
def tryAt (l : List Char) : Option (List Char × List Char) :=
  match matchProlog l with
  | some (pro, rest) =>
    match matchCore rest with
    | some (core, tl) => some (pro ++ core, tl)
    | none => matchCore l
  | none => matchCore l

/-- JS `String.prototype.match` with a non-global regex: try every start
position left to right and return `match[0]`, the full text of the first
(leftmost) match. -/
def scanMatch : List Char → Option (List Char)
  | [] => none
  | c :: rest =>
    match tryAt (c :: rest) with
    | some (m, _) => some m
    | none => scanMatch rest

/-- `HttpClient.prototype.handleResponse` of the newer revision (lines
276-287): replace the body by
`body.match(/(?:<\?[^?]*\?>[\s]*)?<([^:]*):Envelope([\S\s]*)<\/\1:Envelope>/i)[0]`
when the regex matches, return it unchanged otherwise (the body is always a
string in this model, as in the claims). -/
def handleResponse (body : String) : String :=
  match scanMatch body.data with
  | some m => String.mk m
  | none => body

/-- `HttpClient.prototype.handleResponse` of the OLDER revision (lines 87-98),
whose source text — the regex included — is character-for-character identical
to the newer one. -/
def handleResponseLegacy (body : String) : String :=
  match scanMatch body.data with
  | some m => String.mk m
  | none => body

/-- C7: for every URL, extra headers and extra options with an empty attachment
map, the method is GET exactly when the payload is empty or absent, and POST
otherwise. -/

theorem buildRequest_method_get_iff (curl : ParsedUrl) (data : Option String)
    (exh : List (String × String)) (sid bid : String) :
    ((buildRequest curl data exh [] sid bid).method = "GET" ↔
      (data = none ∨ data = some "")) ∧
    ((buildRequest curl data exh [] sid bid).method = "POST" ↔
      ¬(data = none ∨ data = some "")) := by
  cases data with
  | none => simp [buildRequest, jsTruthy]
  | some s =>
    by_cases h : s = "" <;> simp [buildRequest, jsTruthy, h]

/-- The `body` field of the built options is exactly the line-257 conditional
assignment (definitional unfolding of `buildRequest`). -/
theorem buildRequest_body_def (curl : ParsedUrl) (data : Option String)
    (exh atts : List (String × String)) (sid bid : String) :
    (buildRequest curl data exh atts sid bid).body =
      if atts.isEmpty &&
          (getHeader (buildRequest curl data exh atts sid bid).headers "Connection" ==
            some "keep-alive") then data
      else none := rfl

/-- The `multipart` field is populated exactly for a non-empty attachment map. -/
theorem buildRequest_multipart_none_iff (curl : ParsedUrl) (data : Option String)
    (exh atts : List (String × String)) (sid bid : String) :
    (buildRequest curl data exh atts sid bid).multipart = none ↔ atts = [] := by
  cases atts <;> simp [buildRequest]

/-- C8 counterexample: a plain request (payload `"x"`, no attachments, default
`Connection: close`) has NEITHER `body` nor `multipart` populated — the payload
is passed separately via `req.end(data)` (line 353), so the claimed
"exactly one of body and multipart" invariant fails on the returned descriptor. -/
theorem buildRequest_not_oneOf_counterexample :
    ¬ oneOfBodyMultipart (buildRequest urlEx (some "x") [] [] "sid" "bid") := by
  unfold oneOfBodyMultipart
  decide

/-- C8 amended: `body` and `multipart` are never BOTH populated; `multipart` is
populated exactly when the attachment map is non-empty; `body` is populated
exactly when the attachment map is empty, the payload is present and the merged
`Connection` header is `keep-alive`.  In the remaining case (no attachments,
connection not keep-alive) neither field is populated and the payload travels
via `req.end(data)` instead. -/
theorem buildRequest_body_multipart (curl : ParsedUrl) (data : Option String)
    (exh atts : List (String × String)) (sid bid : String) :
    ¬((buildRequest curl data exh atts sid bid).body ≠ none ∧
      (buildRequest curl data exh atts sid bid).multipart ≠ none) ∧
    ((buildRequest curl data exh atts sid bid).multipart ≠ none ↔ atts ≠ []) ∧
    ((buildRequest curl data exh atts sid bid).body ≠ none ↔
      atts = [] ∧ data ≠ none ∧
      getHeader (buildRequest curl data exh atts sid bid).headers "Connection" =
        some "keep-alive") := by
  have hbody := buildRequest_body_def curl data exh atts sid bid
  have hmp := buildRequest_multipart_none_iff curl data exh atts sid bid
  by_cases hc : (atts.isEmpty &&
      (getHeader (buildRequest curl data exh atts sid bid).headers "Connection" ==
        some "keep-alive")) = true
  · have hc' := hc
    rw [Bool.and_eq_true, List.isEmpty_iff, beq_iff_eq] at hc'
    refine ⟨?_, ?_, ?_⟩
    · rintro ⟨-, hm⟩
      exact hm (hmp.mpr hc'.1)
    · exact not_congr hmp
    · rw [hbody, if_pos hc]
      obtain ⟨h1, h2⟩ := hc'
      subst h1
      cases data <;> simp [h2]
  · have hc' := hc
    rw [Bool.and_eq_true, List.isEmpty_iff, beq_iff_eq] at hc'
    refine ⟨?_, ?_, ?_⟩
    · rintro ⟨hb, -⟩
      rw [hbody, if_neg hc] at hb
      exact hb rfl
    · exact not_congr hmp
    · rw [hbody, if_neg hc]
      simp only [ne_eq, not_true_eq_false, false_iff]
      rintro ⟨h1, -, h3⟩
      exact hc' ⟨h1, h3⟩

theorem find?_upsert_self {β : Type} (k : String) (v : β) :
    ∀ hs : List (String × β), hs.any (fun e => e.1 == k) = true →
      (hs.map (fun e => if e.1 == k then (k, v) else e)).find?
        (fun e => e.1 == k) = some (k, v) := by
  intro hs
  induction hs with
  | nil => intro h; simp at h
  | cons e t ih =>
    intro h
    by_cases he : (e.1 == k) = true
    · simp [List.find?, he]
    · have h' : t.any (fun e => e.1 == k) = true := by
        simpa [List.any_cons, he] using h
      rw [List.map_cons, if_neg he, List.find?_cons_of_neg _ (by simpa using he), ih h']

theorem getHeader_setHeader_self {β : Type} (hs : List (String × β)) (k : String)
    (v : β) : getHeader (setHeader hs k v) k = some v := by
  unfold setHeader getHeader
  by_cases h : hs.any (fun e => e.1 == k) = true
  · rw [if_pos h, find?_upsert_self k v hs h]
    rfl
  · rw [if_neg h, List.find?_append]
    have hn : hs.find? (fun e => e.1 == k) = none := by
      rw [List.find?_eq_none]
      intro x hx hpx
      exact h (List.any_of_mem hx hpx)
    simp [hn, List.find?]

theorem strSub_of_eq_append_pre (mid t full : String) (h : full = mid ++ t) :
    mid.data <:+: full.data := by
  subst h
  rw [String.data_append]
  exact (List.prefix_append _ _).isInfix

theorem strSub_of_eq_append_suf (s mid full : String) (h : full = s ++ mid) :
    mid.data <:+: full.data := by
  subst h
  rw [String.data_append]
  exact (List.suffix_append _ _).isInfix

/-- C1 counterexample: with attachment map `{"a": "b"}`, the subsequent part's
content-id is `"<a>"`, the key wrapped in angle brackets — no subsequent part
has content-id equal to the map key `"a"` itself, contradicting the claim as
stated. -/
theorem buildRequest_contentId_counterexample :
    ((buildRequest urlEx (some "x") [] [("a", "b")] "sid" "bid").multipart.getD []).map
        (fun p => p.contentId) = ["<sid>", "<a>"] ∧
    ∀ p ∈ ((buildRequest urlEx (some "x") [] [("a", "b")] "sid" "bid").multipart.getD
        []).drop 1, p.contentId ≠ "a" := by
  constructor
  · rfl
  · decide

/-- C1 amended: for every non-empty attachment map, the built request has no
single `body`, its `content-type` contains `multipart/related` and a
`start="..."` parameter equal to the first (envelope) part's `content-id`, the
envelope part carries the payload as its body, and each subsequent part's
`content-id` is the corresponding attachment-map key wrapped in angle brackets
(`"<" ++ key ++ ">"`), in map iteration order. -/
theorem buildRequest_multipart_shape (curl : ParsedUrl) (data : Option String)
    (exh atts : List (String × String)) (sid bid : String) (h : atts ≠ []) :
    c1Conclusion (buildRequest curl data exh atts sid bid) atts data := by
  cases atts with
  | nil => exact absurd rfl h
  | cons a as =>
    refine ⟨rfl, multipartContentType sid bid, ?_, ?_, ?_⟩
    · cases data <;> exact getHeader_setHeader_self _ _ _
    · refine strSub_of_eq_append_pre "multipart/related"
        ("; boundary=" ++ bid ++ "; type=\"application/soap+xml\"; start=\"<" ++ sid ++ ">\"")
        _ ?_
      show multipartContentType sid bid = _
      unfold multipartContentType
      rw [show ("multipart/related; boundary=" : String) =
        "multipart/related" ++ "; boundary=" from rfl]
      simp only [String.append_assoc]
    · refine ⟨_, _, rfl, ?_, rfl, ?_⟩
      · refine strSub_of_eq_append_suf
          ("multipart/related; boundary=" ++ bid ++ "; type=\"application/soap+xml\"; ")
          ("start=\"" ++ ("<" ++ sid ++ ">") ++ "\"") _ ?_
        show multipartContentType sid bid = _
        unfold multipartContentType
        rw [show ("; type=\"application/soap+xml\"; start=\"<" : String) =
          "; type=\"application/soap+xml\"; " ++ "start=\"" ++ "<" from rfl]
        rw [show (">\"" : String) = ">" ++ "\"" from rfl]
        simp only [String.append_assoc]
      · simp

/-- Witness instantiating the amended C1 theorem at a concrete non-empty
attachment map. -/
theorem buildRequest_multipart_shape_witness :
    ([("a", "b")] : List (String × String)) ≠ [] ∧
    c1Conclusion (buildRequest urlEx (some "x") [] [("a", "b")] "sid" "bid")
      [("a", "b")] (some "x") :=
  ⟨by decide,
   buildRequest_multipart_shape urlEx (some "x") [] [("a", "b")] "sid" "bid" (by decide)⟩

/-- C4: when the Content-Type header is absent (or the response object is
missing) or its value contains no quoted `boundary="..."` token — including an
unquoted `boundary=` parameter — `handleMultipart` returns the empty part list
(it is a total function, so it cannot throw), and the attachments subset
delivered to the caller is therefore empty as well. -/
theorem handleMultipart_soft_fail (ct? : Option String) (body : String)
    (h : ∀ s, ct? = some s → extractBoundary s.data = none) :
    handleMultipart ct? body = [] ∧ attachmentsOf (handleMultipart ct? body) = [] := by
  have hm : handleMultipart ct? body = [] := by
    cases ct? with
    | none => rfl
    | some s =>
      show (if (s == "") = true then [] else
        match extractBoundary s.data with
        | none => []
        | some bnd => (body.splitOn ("--" ++ String.mk bnd)).map parsePart) = []
      by_cases hs : (s == "") = true
      · rw [if_pos hs]
      · rw [if_neg hs, h s rfl]
  exact ⟨hm, by rw [hm]; rfl⟩

/-- Witness for C4 at a concrete content type carrying an unquoted `boundary=`
parameter. -/
theorem handleMultipart_soft_fail_witness :
    (∀ s, (some "multipart/related; boundary=abc" : Option String) = some s →
      extractBoundary s.data = none) ∧
    (handleMultipart (some "multipart/related; boundary=abc") "pre--abcpost" = [] ∧
     attachmentsOf (handleMultipart (some "multipart/related; boundary=abc")
       "pre--abcpost") = []) :=
  ⟨fun s hs => by cases hs; decide,
   handleMultipart_soft_fail (some "multipart/related; boundary=abc") "pre--abcpost"
     (fun s hs => by cases hs; decide)⟩

/-- C6 counterexample: a part whose `content-disposition` value is spelled
`ATTACHMENT` is NOT delivered in the attachments subset (line 347 uses the
case-sensitive `indexOf('attachment')`), although the claim's case-insensitive
predicate accepts it. -/
theorem attachments_filter_counterexample :
    attachmentsOf [⟨[("content-disposition", some "ATTACHMENT")], "d"⟩] = [] ∧
    claimAttachmentP ⟨[("content-disposition", some "ATTACHMENT")], "d"⟩ = true := by
  exact ⟨by decide, by decide⟩

/-- C6 amended: the attachments subset delivered to the caller consists exactly
of the parts whose first header with a (truthy) name equal to
`Content-Disposition` under case-insensitive comparison has a value containing
the token `attachment` under CASE-SENSITIVE comparison (`indexOf`), with the
original part order preserved. -/
theorem attachments_filter_amended (parts : List MimePart) :
    (attachmentsOf parts).Sublist parts ∧
    ∀ p, p ∈ attachmentsOf parts ↔ p ∈ parts ∧ isAttachmentPart p = true :=
  ⟨List.filter_sublist parts, fun _ => List.mem_filter⟩

theorem isPreB_le_length (p : List Char) :
    ∀ l : List Char, isPreB p l = true → p.length ≤ l.length := by
  induction p with
  | nil => intro l _; exact Nat.zero_le _
  | cons a as ih =>
    intro l h
    cases l with
    | nil => simp [isPreB] at h
    | cons b bs =>
      rw [isPreB, Bool.and_eq_true] at h
      exact Nat.succ_le_succ (ih bs h.2)

theorem searchCrlf2_of_first (l : List Char) (i : Nat)
    (hp : isPreB ['\r', '\n', '\r', '\n'] (l.drop i) = true)
    (hmin : ∀ j < i, isPreB ['\r', '\n', '\r', '\n'] (l.drop j) = false) :
    searchCrlf2 l = some i := by
  induction l generalizing i with
  | nil =>
    rw [List.drop_nil] at hp
    exact absurd hp (by decide)
  | cons c rest ih =>
    cases i with
    | zero =>
      rw [List.drop_zero] at hp
      unfold searchCrlf2
      rw [if_pos hp]
    | succ k =>
      have h0 : isPreB ['\r', '\n', '\r', '\n'] (c :: rest) = false := by
        simpa using hmin 0 (Nat.succ_pos k)
      unfold searchCrlf2
      rw [if_neg (by simp [h0]),
        ih k (by simpa using hp) (fun j hj => by
          simpa using hmin (j + 1) (Nat.succ_lt_succ hj))]
      rfl

theorem searchCrlf2_of_none (l : List Char)
    (h : ∀ j, isPreB ['\r', '\n', '\r', '\n'] (l.drop j) = false) :
    searchCrlf2 l = none := by
  induction l with
  | nil => rfl
  | cons c rest ih =>
    unfold searchCrlf2
    rw [if_neg (by simpa using congrArg (· = true) (h 0)),
      ih (fun j => by simpa using h (j + 1))]
    rfl


/-- C2 amended: for every segment, the first occurrence of CRLFCRLF separates
the header block from the body, and the body is the remainder strictly after
those 4 bytes; a segment with NO CRLFCRLF has an empty header map but its body
is the segment with its first three characters dropped (`substring(-1 + 4)`),
not the whole segment. -/
theorem parsePart_split (seg : String) :
    (∀ i : Nat,
      isPreB ['\r', '\n', '\r', '\n'] (seg.data.drop i) = true →
      (∀ j < i, isPreB ['\r', '\n', '\r', '\n'] (seg.data.drop j) = false) →
      (parsePart seg).headers = parseHeaderBlock (String.mk (seg.data.take i)) ∧
      (parsePart seg).data = String.mk (seg.data.drop (i + 4))) ∧
    ((∀ j, j < seg.data.length →
        isPreB ['\r', '\n', '\r', '\n'] (seg.data.drop j) = false) →
      (parsePart seg).headers = [] ∧
      (parsePart seg).data = String.mk (seg.data.drop 3)) := by
  constructor
  · intro i hp hmin
    have hs := searchCrlf2_of_first seg.data i hp hmin
    have hle : i + 4 ≤ seg.data.length := by
      have h4 := isPreB_le_length _ _ hp
      rw [List.length_drop] at h4
      simp only [List.length_cons, List.length_nil] at h4
      omega
    have hhdr : (parsePart seg).headers = parseHeaderBlock (jsSubstring seg 0 (i : Int)) := by
      unfold parsePart
      rw [hs]
    have hdat : (parsePart seg).data = jsSubstringFrom seg ((i : Int) + 4) := by
      unfold parsePart
      rw [hs]
    have c0 : clampIdx seg.data.length 0 = 0 := by
      unfold clampIdx; split <;> omega
    have ci : clampIdx seg.data.length (i : Int) = i := by
      unfold clampIdx; split <;> omega
    have ci4 : clampIdx seg.data.length ((i : Int) + 4) = i + 4 := by
      unfold clampIdx; split <;> omega
    constructor
    · rw [hhdr]
      unfold jsSubstring
      rw [c0, ci, if_pos (Nat.zero_le i), if_pos (Nat.zero_le i), List.drop_zero]
    · rw [hdat]
      unfold jsSubstringFrom
      rw [ci4]
  · intro hb
    have hall : ∀ j, isPreB ['\r', '\n', '\r', '\n'] (seg.data.drop j) = false := by
      intro j
      by_cases hj : j < seg.data.length
      · exact hb j hj
      · rw [List.drop_eq_nil_of_le (by omega)]
        rfl
    have hs := searchCrlf2_of_none seg.data hall
    have hhdr : (parsePart seg).headers = parseHeaderBlock (jsSubstring seg 0 (-1)) := by
      unfold parsePart
      rw [hs]
    have hdat : (parsePart seg).data = jsSubstringFrom seg (-1 + 4) := by
      unfold parsePart
      rw [hs]
    have c0 : clampIdx seg.data.length 0 = 0 := by
      unfold clampIdx; split <;> omega
    have cm1 : clampIdx seg.data.length (-1) = 0 := by
      unfold clampIdx; split <;> omega
    constructor
    · rw [hhdr]
      unfold jsSubstring
      rw [c0, cm1]
      rfl
    · rw [hdat]
      unfold jsSubstringFrom
      rcases le_or_lt 3 seg.data.length with h3 | h3
      · rw [show clampIdx seg.data.length (-1 + 4) = 3 from by
          unfold clampIdx; split <;> omega]
      · rw [show clampIdx seg.data.length (-1 + 4) = seg.data.length from by
          unfold clampIdx; split <;> omega]
        rw [List.drop_length, List.drop_eq_nil_of_le (by omega)]

/-- Witness instantiating the C2 theorem on the segment `"A: B\r\n\r\nhello"`,
whose first CRLFCRLF sits at index 4. -/
theorem parsePart_split_witness :
    isPreB ['\r', '\n', '\r', '\n'] (("A: B\r\n\r\nhello" : String).data.drop 4) = true ∧
    (∀ j < 4, isPreB ['\r', '\n', '\r', '\n']
      (("A: B\r\n\r\nhello" : String).data.drop j) = false) ∧
    ((parsePart "A: B\r\n\r\nhello").headers =
        parseHeaderBlock (String.mk (("A: B\r\n\r\nhello" : String).data.take 4)) ∧
      (parsePart "A: B\r\n\r\nhello").data =
        String.mk (("A: B\r\n\r\nhello" : String).data.drop (4 + 4))) :=
  ⟨by decide, by decide,
   (parsePart_split "A: B\r\n\r\nhello").1 4 (by decide) (by decide)⟩

/-- C2 counterexample: the segment `"abcdef"` contains no CRLFCRLF, yet its
parsed body is `"def"` — `substring(-1 + 4)` drops the first three characters —
and not the whole segment as claimed. -/
theorem parsePart_no_delim_counterexample :
    (∀ j < ("abcdef" : String).data.length,
      isPreB ['\r', '\n', '\r', '\n'] (("abcdef" : String).data.drop j) = false) ∧
    (parsePart "abcdef").headers = [] ∧
    (parsePart "abcdef").data = "def" ∧
    (parsePart "abcdef").data ≠ "abcdef" :=
  ⟨by decide, by decide, by decide, by decide⟩

theorem find?_upsert_ne {β : Type} (k n : String) (v : β) (hnk : (n == k) = false) :
    ∀ hs : List (String × β),
      (hs.map (fun e => if e.1 == n then (n, v) else e)).find? (fun e => e.1 == k) =
        hs.find? (fun e => e.1 == k) := by
  intro hs
  induction hs with
  | nil => rfl
  | cons e t ih =>
    rw [List.map_cons]
    by_cases he : (e.1 == n) = true
    · have h1 : e.1 = n := by simpa using he
      rw [if_pos he]
      simp only [List.find?_cons, h1, hnk]
      exact ih
    · rw [if_neg he]
      simp only [List.find?_cons]
      cases hek : (e.1 == k) with
      | true => rfl
      | false => exact ih

theorem getHeader_setHeader_ne {β : Type} (hs : List (String × β)) (k n : String)
    (v : β) (hnk : (n == k) = false) :
    getHeader (setHeader hs n v) k = getHeader hs k := by
  unfold setHeader getHeader
  by_cases h : hs.any (fun e => e.1 == n) = true
  · rw [if_pos h, find?_upsert_ne k n v hnk hs]
  · rw [if_neg h, List.find?_append, List.find?_cons_of_neg _ (by simp [hnk])]
    simp

theorem splitOnCh_ne_nil (c : Char) : ∀ l : List Char, splitOnCh c l ≠ [] := by
  intro l
  induction l with
  | nil => simp [splitOnCh]
  | cons x rest ih =>
    unfold splitOnCh
    by_cases hx : (x == c) = true
    · rw [if_pos hx]; simp
    · rw [if_neg hx]
      cases hrec : splitOnCh c rest with
      | nil => exact absurd hrec ih
      | cons h t => simp

theorem splitOnCh_chunks (line : List Char) :
    (splitOnCh ':' line)[0]? = some (line.takeWhile (fun c => !(c == ':'))) ∧
    (splitOnCh ':' line)[1]? =
      (match line.dropWhile (fun c => !(c == ':')) with
       | [] => none
       | _ :: r => some (r.takeWhile (fun c => !(c == ':')))) := by
  induction line with
  | nil => exact ⟨rfl, rfl⟩
  | cons x rest ih =>
    by_cases hx : (x == ':') = true
    · rw [show splitOnCh ':' (x :: rest) = [] :: splitOnCh ':' rest from by
        rw [splitOnCh, if_pos hx]]
      refine ⟨?_, ?_⟩
      · rw [List.getElem?_cons_zero, List.takeWhile_cons, if_neg (by simp [hx])]
      · rw [List.getElem?_cons_succ, ih.1, List.dropWhile_cons, if_neg (by simp [hx])]
    · cases hrec : splitOnCh ':' rest with
      | nil => exact absurd hrec (splitOnCh_ne_nil ':' rest)
      | cons h0 t =>
        rw [show splitOnCh ':' (x :: rest) = (x :: h0) :: t from by
          rw [splitOnCh, if_neg hx, hrec]]
        have ih1 := ih.1
        rw [hrec, List.getElem?_cons_zero] at ih1
        have ih2 := ih.2
        rw [hrec, List.getElem?_cons_succ] at ih2
        refine ⟨?_, ?_⟩
        · rw [List.getElem?_cons_zero, List.takeWhile_cons, if_pos (by simp [hx]),
            show h0 = rest.takeWhile (fun c => !(c == ':')) from by simpa using ih1]
        · rw [List.getElem?_cons_succ, ih2, List.dropWhile_cons, if_pos (by simp [hx])]

theorem processHeaderLine_eq (hs : List (String × Option String)) (line : List Char) :
    processHeaderLine hs line =
      match lineEntry line with
      | none => hs
      | some e => setHeader hs e.1 e.2 := by
  obtain ⟨h0, h1⟩ := splitOnCh_chunks line
  simp only [processHeaderLine, lineEntry]
  rw [h0, h1]
  by_cases he : (line.takeWhile (fun c => !(c == ':'))).isEmpty = true
  · simp only [Option.getD_some, he, if_true]
  · simp only [Option.getD_some, he, if_false]
    cases hd : line.dropWhile (fun c => !(c == ':')) with
    | nil => rfl
    | cons d r => rfl

theorem lookup_foldl_lines :
    ∀ (lines : List (List Char)) (hs : List (String × Option String)) (k : String),
      getHeader (lines.foldl processHeaderLine hs) k =
        (((lines.filterMap lineEntry).reverse.find? (fun e => e.1 == k)).map
          (fun e => e.2)).or (getHeader hs k) := by
  intro lines
  induction lines with
  | nil =>
    intro hs k
    simp [Option.none_or]
  | cons L ls ih =>
    intro hs k
    rw [List.foldl_cons, ih, processHeaderLine_eq]
    cases hE : lineEntry L with
    | none =>
      rw [List.filterMap_cons_none hE]
    | some e =>
      rw [List.filterMap_cons_some hE, List.reverse_cons, List.find?_append]
      cases hf : (ls.filterMap lineEntry).reverse.find? (fun x => x.1 == k) with
      | some x => simp [hf]
      | none =>
        simp only [hf, Option.none_or, Option.map_none, Option.none_or]
        by_cases hek : (e.1 == k) = true
        · have h1 : e.1 = k := by simpa using hek
          subst h1
          rw [getHeader_setHeader_self]
          simp [List.find?_cons, hek]
        · rw [getHeader_setHeader_ne _ _ _ _ (by simpa using hek)]
          simp [List.find?_cons, hek]

/-- C3 counterexample: for the header line `"a: b:c"` the stored value is "b",
the chunk between the first and second colon (`split(':')[1]`), not everything
after the first colon (`"b:c"`). -/
theorem parseHeaderBlock_colon_counterexample :
    getHeader (parseHeaderBlock "a: b:c") "a" = some (some "b") ∧
    ("b" : String) ≠ "b:c" :=
  ⟨by decide, by decide⟩

/-- C3 amended: the header block is split on line breaks and every line on
colons, the stored value being the chunk strictly between the first and second
colon (`split(':')[1]`, `undefined` when there is no colon) — not everything
after the first colon; the name is trimmed and the value trimmed only if
non-empty; lines whose text before the first colon is empty are skipped; and
the value returned for a name is that of the LAST contributing line bearing it
(later occurrences overwrite earlier ones). -/
theorem parseHeaderBlock_amended (block : String) (k : String) :
    getHeader (parseHeaderBlock block) k =
      (((splitLines block.data).filterMap lineEntry).reverse.find?
        (fun e => e.1 == k)).map (fun e => e.2) := by
  unfold parseHeaderBlock
  rw [lookup_foldl_lines]
  simp [getHeader, Option.or_none]

/-- C5: on the spec's example body the extracted envelope keeps the XML prolog
and the whitespace between prolog and opening tag, and drops the leading and
trailing garbage; and on any body the pattern does not match, `handleResponse`
returns the body unchanged. -/
theorem handleResponse_envelope_extract :
    handleResponse
        "garbage<?xml version=\"1.0\"?>  <soap:Envelope>...</soap:Envelope>trailing" =
      "<?xml version=\"1.0\"?>  <soap:Envelope>...</soap:Envelope>" ∧
    ∀ b : String, scanMatch b.data = none → handleResponse b = b := by
  constructor
  · decide
  · intro b hb
    unfold handleResponse
    rw [hb]

/-- Witness applying the no-match clause of the C5 theorem to a concrete body. -/
theorem handleResponse_envelope_extract_witness :
    scanMatch ("no envelope here" : String).data = none ∧
    handleResponse "no envelope here" = "no envelope here" :=
  ⟨by decide, handleResponse_envelope_extract.2 "no envelope here" (by decide)⟩

/-- C9: the two copies of `handleResponse` (lines 87-98 and lines 276-287) are
character-for-character identical, so they are extensionally equal. -/
theorem handleResponse_versions_eq (body : String) :
    handleResponseLegacy body = handleResponse body := rfl

theorem dropWhile_head_not {α : Type} (p : α → Bool) (l : List α) :
    ∀ c, (l.dropWhile p).head? = some c → p c = false := by
  induction l with
  | nil => intro c h; simp at h
  | cons a t ih =>
    intro c h
    rw [List.dropWhile_cons] at h
    split at h
    · exact ih c h
    · next hpa =>
      rw [List.head?_cons] at h
      cases h
      simpa using hpa

theorem takeWhile_append_of {α : Type} (p : α → Bool) (a x : List α)
    (ha : ∀ c ∈ a, p c = true) (hx : ∀ c, x.head? = some c → p c = false) :
    (a ++ x).takeWhile p = a ∧ (a ++ x).dropWhile p = x := by
  induction a with
  | nil =>
    simp only [List.nil_append]
    cases x with
    | nil => exact ⟨rfl, rfl⟩
    | cons b bs =>
      have hb : p b = false := hx b rfl
      rw [List.takeWhile_cons, List.dropWhile_cons]
      simp [hb]
  | cons c t ih =>
    have hc : p c = true := ha c (by simp)
    have iht := ih (fun d hd => ha d (by simp [hd]))
    rw [List.cons_append, List.takeWhile_cons, List.dropWhile_cons]
    simp only [hc, if_true]
    exact ⟨by rw [iht.1], by rw [iht.2]⟩

theorem ciStrip2_sound :
    ∀ (pat l c r : List Char), ciStrip2 pat l = some (c, r) →
      l = c ++ r ∧ c.length = pat.length ∧
      ∀ r' : List Char, ciStrip2 pat (c ++ r') = some (c, r') := by
  intro pat
  induction pat with
  | nil =>
    intro l c r h
    rw [ciStrip2] at h
    injection h with h1
    injection h1 with h1 h2
    subst h1
    subst h2
    exact ⟨rfl, rfl, fun r' => rfl⟩
  | cons p ps ih =>
    intro l c r h
    cases l with
    | nil => exact absurd h (by simp [ciStrip2])
    | cons b bs =>
      rw [ciStrip2] at h
      by_cases he : ciEqC p b = true
      · rw [if_pos he] at h
        cases hrec : ciStrip2 ps bs with
        | none => rw [hrec] at h; cases h
        | some pr =>
          obtain ⟨c', r'⟩ := pr
          rw [hrec] at h
          injection h with h1
          injection h1 with h1 h2
          subst h2
          obtain ⟨hl, hlen, hext⟩ := ih bs c' r' hrec
          subst h1
          refine ⟨by rw [List.cons_append, hl], by simp [hlen], ?_⟩
          intro r''
          rw [List.cons_append, ciStrip2, if_pos he, hext r'']
      · rw [if_neg he] at h
        cases h

theorem ciStrip2_take_some (pat x : List Char) (m : Nat) (c r : List Char)
    (h : ciStrip2 pat (x.take m) = some (c, r)) :
    ciStrip2 pat x = some (c, r ++ x.drop m) := by
  obtain ⟨hl, -, hext⟩ := ciStrip2_sound pat _ c r h
  have hx : x = c ++ (r ++ x.drop m) := by
    conv_lhs => rw [← List.take_append_drop m x]
    rw [hl, List.append_assoc]
  conv_lhs => rw [hx]
  exact hext _

theorem findLastClose_nil (pat : List Char) :
    findLastClose pat [] =
      match ciStrip2 pat [] with
      | some (c, r) => some ([], c, r)
      | none => none := rfl

theorem findLastClose_cons (pat : List Char) (a : Char) (rest : List Char) :
    findLastClose pat (a :: rest) =
      match findLastClose pat rest with
      | some (mid, c, r) => some (a :: mid, c, r)
      | none =>
        match ciStrip2 pat (a :: rest) with
        | some (c, r) => some ([], c, r)
        | none => none := rfl

theorem findLastClose_sound (pat : List Char) :
    ∀ (l mid c r : List Char), findLastClose pat l = some (mid, c, r) →
      l = mid ++ c ++ r ∧ ciStrip2 pat (c ++ r) = some (c, r) := by
  intro l
  induction l with
  | nil =>
    intro mid c r h
    rw [findLastClose_nil] at h
    cases hstrip : ciStrip2 pat [] with
    | none => rw [hstrip] at h; cases h
    | some cr =>
      obtain ⟨c0, r0⟩ := cr
      rw [hstrip] at h
      injection h with h1
      injection h1 with h1 h2
      injection h2 with h2 h3
      subst h1; subst h2; subst h3
      obtain ⟨hl, -, hext⟩ := ciStrip2_sound pat [] c0 r0 hstrip
      refine ⟨by simpa using hl, ?_⟩
      rw [← hl]
      exact hstrip
  | cons a rest ih =>
    intro mid c r h
    rw [findLastClose_cons] at h
    cases hrec : findLastClose pat rest with
    | some t =>
      obtain ⟨mid', c', r'⟩ := t
      rw [hrec] at h
      injection h with h1
      injection h1 with h1 h2
      injection h2 with h2 h3
      subst h2; subst h3
      obtain ⟨hl, hstrip⟩ := ih mid' c' r' hrec
      subst h1
      exact ⟨by rw [List.cons_append, List.cons_append, ← hl], hstrip⟩
    | none =>
      rw [hrec] at h
      cases hstrip : ciStrip2 pat (a :: rest) with
      | none => rw [hstrip] at h; cases h
      | some cr =>
        obtain ⟨c0, r0⟩ := cr
        rw [hstrip] at h
        injection h with h1
        injection h1 with h1 h2
        injection h2 with h2 h3
        subst h1; subst h2; subst h3
        obtain ⟨hl, -, hext⟩ := ciStrip2_sound pat _ c0 r0 hstrip
        refine ⟨by simpa using hl, ?_⟩
        rw [← hl]
        exact hstrip

theorem findLastClose_none_take (pat : List Char) (hp : pat ≠ []) :
    ∀ l : List Char, findLastClose pat l = none →
      ∀ k, findLastClose pat (l.take k) = none := by
  intro l
  induction l with
  | nil =>
    intro h k
    rw [List.take_nil]
    exact h
  | cons a rest ih =>
    intro h k
    rw [findLastClose_cons] at h
    cases h1 : findLastClose pat rest with
    | some t => rw [h1] at h; obtain ⟨mid, c, r⟩ := t; cases h
    | none =>
      rw [h1] at h
      cases h2 : ciStrip2 pat (a :: rest) with
      | some cr => rw [h2] at h; obtain ⟨c, r⟩ := cr; cases h
      | none =>
        cases k with
        | zero =>
          rw [List.take_zero]
          cases pat with
          | nil => exact absurd rfl hp
          | cons p ps => rfl
        | succ k' =>
          rw [List.take_succ_cons, findLastClose_cons, ih h1 k']
          cases h3 : ciStrip2 pat (a :: rest.take k') with
          | none => rfl
          | some cr =>
            obtain ⟨c, r⟩ := cr
            have h4 := ciStrip2_take_some pat (a :: rest) (k' + 1) c r
              (by rw [List.take_succ_cons]; exact h3)
            rw [h2] at h4
            cases h4

theorem findLastClose_ne_none_of_strip (pat c0 t0 : List Char)
    (h : ciStrip2 pat (c0 ++ t0) = some (c0, t0)) :
    ∀ m0 : List Char, findLastClose pat (m0 ++ (c0 ++ t0)) ≠ none := by
  intro m0
  induction m0 with
  | nil =>
    rw [List.nil_append]
    cases hl : c0 ++ t0 with
    | nil =>
      rw [hl] at h
      rw [findLastClose_nil, h]
      simp
    | cons a rest =>
      rw [findLastClose_cons]
      cases h1 : findLastClose pat rest with
      | some t => obtain ⟨mid, c, r⟩ := t; simp
      | none =>
        rw [← hl, h]
        simp
  | cons a m0' ih =>
    rw [List.cons_append, findLastClose_cons]
    cases h1 : findLastClose pat (m0' ++ (c0 ++ t0)) with
    | some t => obtain ⟨mid, c, r⟩ := t; simp
    | none => exact absurd h1 ih

theorem findLastClose_trunc (pat : List Char) :
    ∀ (l mid c r : List Char), findLastClose pat l = some (mid, c, r) →
      findLastClose pat (mid ++ c) = some (mid, c, []) := by
  intro l
  induction l with
  | nil =>
    intro mid c r h
    rw [findLastClose_nil] at h
    cases hstrip : ciStrip2 pat [] with
    | none => rw [hstrip] at h; cases h
    | some cr =>
      obtain ⟨c0, r0⟩ := cr
      rw [hstrip] at h
      injection h with h1
      injection h1 with h1 h2
      injection h2 with h2 h3
      subst h1; subst h2; subst h3
      obtain ⟨hl, -, hext⟩ := ciStrip2_sound pat [] c0 r0 hstrip
      have hc : c0 = [] := (List.append_eq_nil.mp hl.symm).1
      subst hc
      rw [List.nil_append, findLastClose_nil]
      have h7 := hext []
      rw [List.nil_append] at h7
      rw [h7]
  | cons a rest ih =>
    intro mid c r h
    rw [findLastClose_cons] at h
    cases h1 : findLastClose pat rest with
    | some t =>
      obtain ⟨mid', c', r'⟩ := t
      rw [h1] at h
      injection h with h1'
      injection h1' with h1' h2'
      injection h2' with h2' h3'
      subst h2'; subst h3'
      have hih := ih mid' c' r' h1
      subst h1'
      rw [List.cons_append, findLastClose_cons, hih]
    | none =>
      rw [h1] at h
      cases h2 : ciStrip2 pat (a :: rest) with
      | none => rw [h2] at h; cases h
      | some cr =>
        obtain ⟨c0, r0⟩ := cr
        rw [h2] at h
        injection h with e1
        injection e1 with e1 e2
        injection e2 with e2 e3
        subst e1; subst e2; subst e3
        obtain ⟨hl, hlen, hext⟩ := ciStrip2_sound pat _ c0 r0 h2
        rw [List.nil_append]
        cases hcs : c0 with
        | nil =>
          have hpnil : pat = [] := by
            rw [hcs] at hlen
            exact List.eq_nil_of_length_eq_zero hlen.symm
          subst hpnil
          rfl
        | cons b c0' =>
          rw [hcs] at hl
          rw [List.cons_append] at hl
          injection hl with ha hrest
          have hpne : pat ≠ [] := by
            intro hpe
            rw [hpe, hcs] at hlen
            simp at hlen
          have hnone : findLastClose pat c0' = none := by
            have h5 : c0' = rest.take c0'.length := by
              rw [hrest, List.take_left]
            rw [h5]
            exact findLastClose_none_take pat hpne rest h1 c0'.length
          have h6 := hext []
          rw [List.append_nil] at h6
          rw [hcs] at h6
          rw [findLastClose_cons, hnone, h6]

theorem matchProlog_sound (l pro rest : List Char)
    (h : matchProlog l = some (pro, rest)) :
    ∃ a w, pro = '<' :: '?' :: (a ++ '?' :: '>' :: w) ∧ l = pro ++ rest ∧
      (∀ c ∈ a, (c == '?') = false) ∧ (∀ c ∈ w, isJsSpace c = true) ∧
      (∀ c, rest.head? = some c → isJsSpace c = false) := by
  cases l with
  | nil => exact absurd h (by simp [matchProlog])
  | cons c1 l1 =>
    cases l1 with
    | nil => exact absurd h (by simp [matchProlog])
    | cons c2 r =>
      simp only [matchProlog] at h
      split at h
      · next h12 =>
          obtain ⟨rfl, rfl⟩ := h12
          split at h
          · next d1 d2 b2 hdrop =>
              split at h
              · next hdd =>
                  obtain ⟨rfl, rfl⟩ := hdd
                  injection h with h1
                  injection h1 with h1 h2
                  refine ⟨r.takeWhile (fun c => !(c == '?')), b2.takeWhile isJsSpace,
                    h1.symm, ?_, ?_, ?_, ?_⟩
                  · rw [← h1, ← h2]
                    have hr : r = r.takeWhile (fun c => !(c == '?')) ++
                        ('?' :: '>' :: b2) := by
                      conv_lhs => rw [← List.takeWhile_append_dropWhile
                        (fun c => !(c == '?')) r]
                      rw [hdrop]
                    have hb2 : b2 = b2.takeWhile isJsSpace ++
                        b2.dropWhile isJsSpace :=
                      (List.takeWhile_append_dropWhile isJsSpace b2).symm
                    conv_lhs => rw [hr]
                    conv_lhs => rw [hb2]
                    simp
                  · intro c hc
                    have := List.mem_takeWhile_imp hc
                    simpa using this
                  · intro c hc
                    exact List.mem_takeWhile_imp hc
                  · intro c hc
                    rw [← h2] at hc
                    exact dropWhile_head_not isJsSpace b2 c hc
              · cases h
          · next => cases h
      · cases h

theorem matchProlog_ext (a w x : List Char)
    (ha : ∀ c ∈ a, (c == '?') = false)
    (hw : ∀ c ∈ w, isJsSpace c = true)
    (hx : ∀ c, x.head? = some c → isJsSpace c = false) :
    matchProlog (('<' :: '?' :: (a ++ '?' :: '>' :: w)) ++ x) =
      some ('<' :: '?' :: (a ++ '?' :: '>' :: w), x) := by
  have hspan := takeWhile_append_of (fun c => !(c == '?')) a ('?' :: '>' :: (w ++ x))
    (fun c hc => by simp [ha c hc])
    (fun c hc => by rw [List.head?_cons] at hc; cases hc; simp)
  have hspan2 := takeWhile_append_of isJsSpace w x hw hx
  show matchProlog ('<' :: '?' :: ((a ++ '?' :: '>' :: w) ++ x)) = _
  have hassoc : (a ++ '?' :: '>' :: w) ++ x = a ++ '?' :: '>' :: (w ++ x) := by
    simp
  rw [hassoc]
  simp only [matchProlog]
  rw [if_pos ⟨trivial, trivial⟩, hspan.1, hspan.2]
  simp only [hspan2.1, hspan2.2]
  simp

theorem matchCore_sound (l core tl : List Char) (h : matchCore l = some (core, tl)) :
    l = core ++ tl ∧ (∃ cs, core = '<' :: cs) ∧
    matchCore core = some (core, []) ∧
    ∀ B, matchCore (l ++ B) ≠ none := by
  cases l with
  | nil => exact absurd h (by simp [matchCore])
  | cons c1 rest =>
    simp only [matchCore] at h
    split at h
    · next h1 =>
        subst h1
        split at h
        · next hh r2 hdrop =>
            split at h
            · next envC r3 hstrip =>
                split at h
                · next mid closeC tl0 hfl =>
                    injection h with h1'
                    injection h1' with hcore htl
                    have hph : (!(hh == ':')) = false :=
                      dropWhile_head_not (fun c => !(c == ':')) rest hh
                        (by rw [hdrop, List.head?_cons])
                    have hrest : rest = rest.takeWhile (fun c => !(c == ':')) ++
                        (hh :: r2) := by
                      conv_lhs => rw [← List.takeWhile_append_dropWhile
                        (fun c => !(c == ':')) rest]
                      rw [hdrop]
                    obtain ⟨hr2, hlenE, hextE⟩ := ciStrip2_sound envLit r2 envC r3 hstrip
                    obtain ⟨hr3, hstripC⟩ := findLastClose_sound _ r3 mid closeC tl0 hfl
                    have htr := findLastClose_trunc _ r3 mid closeC tl0 hfl
                    obtain ⟨hclC, -, hextC⟩ :=
                      ciStrip2_sound _ _ closeC tl0 hstripC
                    have hmemCap : ∀ c ∈ rest.takeWhile (fun c => !(c == ':')),
                        (!(c == ':')) = true :=
                      fun c hc => by simpa using List.mem_takeWhile_imp hc
                    have hsp := takeWhile_append_of (fun c => !(c == ':'))
                      (rest.takeWhile (fun c => !(c == ':')))
                      (hh :: (envC ++ mid ++ closeC)) hmemCap
                      (fun c hc => by rw [List.head?_cons] at hc; cases hc; exact hph)
                    refine ⟨?_, ⟨_, hcore.symm⟩, ?_, ?_⟩
                    · rw [← hcore, ← htl]
                      conv_lhs => rw [hrest, hr2, hr3]
                      simp
                    · rw [← hcore]
                      simp only [matchCore]
                      rw [if_pos trivial]
                      simp only [hsp.1, hsp.2]
                      have he2 : ciStrip2 envLit (envC ++ mid ++ closeC) =
                          some (envC, mid ++ closeC) := by
                        rw [List.append_assoc]
                        exact hextE _
                      simp only [he2, htr]
                    · intro B
                      have hspB := takeWhile_append_of (fun c => !(c == ':'))
                        (rest.takeWhile (fun c => !(c == ':')))
                        (hh :: (r2 ++ B)) hmemCap
                        (fun c hc => by rw [List.head?_cons] at hc; cases hc; exact hph)
                      have hlB : ('<' :: rest) ++ B =
                          '<' :: (rest.takeWhile (fun c => !(c == ':')) ++
                            (hh :: (r2 ++ B))) := by
                        conv_lhs => rw [hrest]
                        simp
                      rw [hlB]
                      simp only [matchCore]
                      rw [if_pos trivial]
                      simp only [hspB.1, hspB.2]
                      have he3 : ciStrip2 envLit (r2 ++ B) = some (envC, r3 ++ B) := by
                        rw [hr2, List.append_assoc]
                        exact hextE _
                      simp only [he3]
                      have hstripB : ciStrip2 (closePat (rest.takeWhile
                          (fun c => !(c == ':')))) (closeC ++ (tl0 ++ B)) =
                          some (closeC, tl0 ++ B) := hextC _
                      have hr3B : r3 ++ B = mid ++ (closeC ++ (tl0 ++ B)) := by
                        rw [hr3]
                        simp
                      simp only [hr3B]
                      cases hflB : findLastClose (closePat (rest.takeWhile
                          (fun c => !(c == ':')))) (mid ++ (closeC ++ (tl0 ++ B))) with
                      | none =>
                        exact absurd hflB
                          (findLastClose_ne_none_of_strip _ _ _ hstripB mid)
                      | some t =>
                        obtain ⟨m2, t2⟩ := t
                        obtain ⟨c2, t3⟩ := t2
                        simp [hflB]
                · cases h
            · cases h
        · next => cases h
    · cases h

theorem matchCore_none_take (r : List Char) (h : matchCore r = none) (k : Nat) :
    matchCore (r.take k) = none := by
  cases hc : matchCore (r.take k) with
  | none => rfl
  | some y =>
    obtain ⟨core, tl⟩ := y
    have h5 := (matchCore_sound _ _ _ hc).2.2.2 (r.drop k)
    rw [List.take_append_drop] at h5
    exact absurd h h5

theorem tryAt_sound (l m rest : List Char) (h : tryAt l = some (m, rest)) :
    l = m ++ rest ∧ m ≠ [] ∧ tryAt m = some (m, []) := by
  unfold tryAt at h ⊢
  cases hp : matchProlog l with
  | none =>
    rw [hp] at h
    simp only [] at h
    obtain ⟨hl, ⟨cs, hcs⟩, hstab, -⟩ := matchCore_sound l m rest h
    refine ⟨hl, by simp [hcs], ?_⟩
    cases hpm : matchProlog m with
    | none => exact hstab
    | some pr =>
      obtain ⟨pro2, r2⟩ := pr
      cases hr2n : r2 with
      | nil =>
        subst hr2n
        exact hstab
      | cons c2 r2' =>
        obtain ⟨a, w, hpro2, hm2, ha, hw, hhd⟩ := matchProlog_sound m pro2 r2 hpm
        have hext : matchProlog (pro2 ++ (r2 ++ rest)) = some (pro2, r2 ++ rest) := by
          rw [hpro2]
          refine matchProlog_ext a w (r2 ++ rest) ha hw ?_
          intro c hcc
          rw [hr2n, List.cons_append, List.head?_cons] at hcc
          cases hcc
          exact hhd c2 (by rw [hr2n, List.head?_cons])
        have hl2 : pro2 ++ (r2 ++ rest) = l := by
          rw [hl, hm2, List.append_assoc]
        rw [hl2, hp] at hext
        cases hext
  | some pr =>
    obtain ⟨pro, r⟩ := pr
    rw [hp] at h
    simp only [] at h
    cases hc : matchCore r with
    | some cr =>
      obtain ⟨core, tl⟩ := cr
      rw [hc] at h
      simp only [] at h
      injection h with h1
      injection h1 with hm hrest
      obtain ⟨a, w, hproS, hlS, ha, hw, hhd⟩ := matchProlog_sound l pro r hp
      obtain ⟨hrc, ⟨cs, hcs⟩, hstab, -⟩ := matchCore_sound r core tl hc
      refine ⟨?_, ?_, ?_⟩
      · rw [← hm, ← hrest, hlS, hrc, List.append_assoc]
      · rw [← hm]
        simp [hproS]
      · have hpm : matchProlog (pro ++ core) = some (pro, core) := by
          rw [hproS]
          refine matchProlog_ext a w core ha hw ?_
          intro c hcc
          rw [hcs, List.head?_cons] at hcc
          cases hcc
          decide
        rw [← hm]
        simp only [hpm]
        simp only [hstab]
    | none =>
      rw [hc] at h
      simp only [] at h
      obtain ⟨hl, ⟨cs, hcs⟩, hstab, -⟩ := matchCore_sound l m rest h
      refine ⟨hl, by simp [hcs], ?_⟩
      cases hpm : matchProlog m with
      | none => exact hstab
      | some pr2 =>
        obtain ⟨pro2, r2⟩ := pr2
        cases hr2n : r2 with
        | nil =>
          subst hr2n
          exact hstab
        | cons c2 r2' =>
          obtain ⟨a, w, hpro2, hm2, ha, hw, hhd⟩ := matchProlog_sound m pro2 r2 hpm
          have hext : matchProlog (pro2 ++ (r2 ++ rest)) = some (pro2, r2 ++ rest) := by
            rw [hpro2]
            refine matchProlog_ext a w (r2 ++ rest) ha hw ?_
            intro c hcc
            rw [hr2n, List.cons_append, List.head?_cons] at hcc
            cases hcc
            exact hhd c2 (by rw [hr2n, List.head?_cons])
          have hl2 : pro2 ++ (r2 ++ rest) = l := by
            rw [hl, hm2, List.append_assoc]
          rw [hl2, hp] at hext
          injection hext with e1
          injection e1 with e1 e2
          have hr2c : matchCore r2 = none := by
            have ht2 : r2 = r.take r2.length := by
              rw [e2, List.take_left]
            rw [ht2]
            exact matchCore_none_take r hc r2.length
          rw [hr2n] at hr2c
          simp only [hr2c]
          exact hstab

theorem scanMatch_sound : ∀ l m : List Char, scanMatch l = some m →
    m ≠ [] ∧ tryAt m = some (m, []) := by
  intro l
  induction l with
  | nil => intro m h; simp [scanMatch] at h
  | cons c rest ih =>
    intro m h
    unfold scanMatch at h
    cases ht : tryAt (c :: rest) with
    | some pr =>
      obtain ⟨m0, r0⟩ := pr
      rw [ht] at h
      simp only [] at h
      injection h with h1
      subst h1
      obtain ⟨-, hne, hstab⟩ := tryAt_sound (c :: rest) m0 r0 ht
      exact ⟨hne, hstab⟩
    | none =>
      rw [ht] at h
      simp only [] at h
      exact ih m h

theorem scanMatch_self (m : List Char) (hne : m ≠ []) (ht : tryAt m = some (m, [])) :
    scanMatch m = some m := by
  cases m with
  | nil => exact absurd rfl hne
  | cons c r =>
    unfold scanMatch
    rw [ht]

/-- C10: the envelope extraction is idempotent — applying `handleResponse`
twice gives the same result as applying it once.  The key fact is that the
regex match `m` of a body matches itself entirely: the prolog scan and the
capture-1 scan are determined by characters inside `m`, and the greedy
`([\S\s]*)` ends at the LAST closing tag, which inside `m` is the final one. -/
theorem handleResponse_idempotent (body : String) :
    handleResponse (handleResponse body) = handleResponse body := by
  cases h : scanMatch body.data with
  | none =>
    have h1 : handleResponse body = body := by
      unfold handleResponse
      rw [h]
    rw [h1]
    exact h1
  | some m =>
    have h1 : handleResponse body = String.mk m := by
      unfold handleResponse
      rw [h]
    obtain ⟨hne, ht⟩ := scanMatch_sound body.data m h
    have h2 : scanMatch (String.mk m).data = some m := scanMatch_self m hne ht
    rw [h1]
    unfold handleResponse
    rw [show (String.mk m).data = m from rfl, h2]
